import Mathlib

/-!
Verification development for the `big_data` retrieval pipeline
(`script/time_processor.py`, `script/indexing.py`, `script/time_sorting_utils.py`,
`script/subagents/event_summary.py`, `script/generate_report.py`).

Shallow embedding conventions:
* Python `datetime.datetime` values are modelled by `PyDateTime` (year, month,
  day, hour, minute, second, microsecond as naturals) compared through an
  injective encoding `PyDateTime.key` that agrees with Python's
  field-lexicographic comparison on calendar-valid values.
* Python `re` scanning is modelled by an explicit backtracking matcher for the
  nine fixed date patterns of `TimeProcessor.date_patterns`.  A Python `\b`
  word boundary is a transition between a word character and a non-word
  character; in Python's Unicode mode CJK ideographs count as word characters,
  which `isWordChar` reflects for the character ranges occurring in the data.
* `float` scores are modelled as exact rationals; the external
  `difflib.SequenceMatcher(...).ratio()` is an opaque parameter `simFn`.
* Text is represented by its token list for the chunker (the tokenizer
  `tiktoken` is an external collaborator whose `decode` inverts `encode`).
-/

/-- Python `datetime.datetime`: the fields relevant to the pipeline. -/
structure PyDateTime where
  year : Nat
  month : Nat
  day : Nat
  hour : Nat := 0
  minute : Nat := 0
  second : Nat := 0
  usec : Nat := 0
deriving Repr, DecidableEq

/-- Injective encoding of a calendar-valid `PyDateTime` into `Nat`; monotone
with respect to Python's field-lexicographic `datetime` comparison because
every field stays below its mixed-radix bound (month < 13, day < 32,
hour < 25, minute/second < 61, microsecond < 1000000). -/
def PyDateTime.key (d : PyDateTime) : Nat :=
  (((((d.year * 13 + d.month) * 32 + d.day) * 25 + d.hour) * 61 + d.minute) * 61
      + d.second) * 1000000 + d.usec

/-- Value `datetime.datetime.max` = 9999-12-31 23:59:59.999999, the sort key given to
documents without date information. -/
def pyDateTimeMax : PyDateTime :=
  { year := 9999, month := 12, day := 31, hour := 23, minute := 59, second := 59,
    usec := 999999 }

/-- Gregorian leap-year test, as used by `datetime`'s calendar validation. -/
def isLeapYear (y : Nat) : Bool :=
  y % 4 == 0 && (y % 100 != 0 || y % 400 == 0)

/-- Number of days in a month of a given year (Gregorian calendar). -/
def daysInMonth (y m : Nat) : Nat :=
  if m == 2 then (if isLeapYear y then 29 else 28)
  else if m == 4 || m == 6 || m == 9 || m == 11 then 30
  else 31

/-- Calendar validity check performed by `datetime.datetime(y, m, d)`:
`MINYEAR = 1 ≤ y ≤ 9999 = MAXYEAR`, `1 ≤ m ≤ 12`, `1 ≤ d ≤ days_in_month`. -/
def validYMD (y m d : Nat) : Bool :=
  1 ≤ y && y ≤ 9999 && 1 ≤ m && m ≤ 12 && 1 ≤ d && d ≤ daysInMonth y m

/-- Civil date from a day count since the Unix epoch (non-negative), the
standard days-to-civil algorithm; used to model
`datetime.datetime.fromtimestamp`.  The source converts in the process-local
timezone; this model uses UTC — no claim in scope depends on the offset. -/
def civilFromDays (z0 : Nat) : Nat × Nat × Nat :=
  let z := z0 + 719468
  let era := z / 146097
  let doe := z % 146097
  let yoe := (doe - doe / 1460 + doe / 36524 - doe / 146096) / 365
  let y := yoe + era * 400
  let doy := doe - (365 * yoe + yoe / 4 - yoe / 100)
  let mp := (5 * doy + 2) / 153
  let d := doy - (153 * mp + 2) / 5 + 1
  let m := if mp < 10 then mp + 3 else mp - 9
  (if m ≤ 2 then y + 1 else y, m, d)

/-- Model of `datetime.datetime.fromtimestamp` (UTC; see `civilFromDays`). -/
def pyFromTimestamp (ts : Nat) : PyDateTime :=
  let days := ts / 86400
  let secs := ts % 86400
  let c := civilFromDays days
  { year := c.1, month := c.2.1, day := c.2.2,
    hour := secs / 3600, minute := secs % 3600 / 60, second := secs % 60 }

/-- Word character for Python `re` in Unicode mode, restricted to the
character ranges appearing in this code base: ASCII alphanumerics and
underscore, plus CJK Unified Ideographs (U+4E00–U+9FFF), which Python's `\w`
matches — the fact that makes `\b` fail between a CJK character and a digit. -/
def isWordChar (c : Char) : Bool :=
  c.isAlphanum || c == '_' || (0x4E00 ≤ c.toNat && c.toNat ≤ 0x9FFF)

/-- One element of a date regular expression: a literal character or a
greedy digit run of between `lo` and `hi` repetitions. -/
inductive RElem where
  | lit (c : Char)
  | digits (lo hi : Nat)
deriving Repr, DecidableEq

/-- Word-boundary test on the right edge of a match: the remainder must be
empty or start with a non-word character (every pattern ends in a word
character, a digit or a CJK ideograph). -/
def rightBoundaryOK : List Char → Bool
  | [] => true
  | c :: _ => !isWordChar c

/-- Candidate lengths for a greedy digit run: `hi, hi-1, …, lo`, the order in
which the `re` engine tries them before backtracking. -/
def greedyLens (lo hi : Nat) : List Nat :=
  (List.range (hi + 1 - lo)).map (fun i => hi - i)

/-- Greedy backtracking matcher for a date pattern against a prefix of `s`,
returning the number of characters consumed by the leftmost-greedy match that
also satisfies the trailing `\b`. -/
def matchElems : List RElem → List Char → Option Nat
  | [], s => if rightBoundaryOK s then some 0 else none
  | .lit c :: ps, s =>
      match s with
      | [] => none
      | x :: xs => if x == c then (matchElems ps xs).map (· + 1) else none
  | .digits lo hi :: ps, s =>
      (greedyLens lo hi).findSome? fun n =>
        let pre := s.take n
        if pre.length == n && pre.all Char.isDigit then
          (matchElems ps (s.drop n)).map (· + n)
        else none

/-- Scanning loop of `re.findall` for a `\b`-delimited date pattern: scan left
to right, at each position whose left edge is a word boundary attempt a match;
on success emit the matched substring and resume after it, otherwise advance
one character.  `prev` is the character preceding the current position.  The
recursion is paced by `fuel`; every step consumes at least one character, so
`fuel = s.length` (as passed by `findAll`) makes the zero-fuel case
unreachable. -/
def findAllF : Nat → List RElem → Option Char → List Char → List (List Char)
  | 0, _, _, _ => []
  | fuel + 1, ps, prev, s =>
    match s with
    | [] => []
    | x :: xs =>
      let leftOK := match prev with
        | none => true
        | some p => !isWordChar p
      match (if leftOK then matchElems ps (x :: xs) else none) with
      | some n =>
          let m := max 1 n
          let pre := (x :: xs).take m
          pre :: findAllF fuel ps pre.getLast? ((x :: xs).drop m)
      | none => findAllF fuel ps (some x) xs

/-- Model of `re.findall(pattern, text)` for one of the `\b`-delimited date patterns. -/
def findAll (ps : List RElem) (prev : Option Char) (s : List Char) :
    List (List Char) :=
  findAllF s.length ps prev s

/-- The nine patterns of `TimeProcessor.date_patterns`, in source order. -/
def datePatterns : List (List RElem) :=
  [ [.digits 4 4, .lit '-', .digits 1 2, .lit '-', .digits 1 2],
    [.digits 4 4, .lit '/', .digits 1 2, .lit '/', .digits 1 2],
    [.digits 4 4, .lit '年', .digits 1 2, .lit '月', .digits 1 2, .lit '日'],
    [.digits 1 2, .lit '/', .digits 1 2, .lit '/', .digits 4 4],
    [.digits 4 4, .lit '.', .digits 1 2, .lit '.', .digits 1 2],
    [.digits 4 4, .lit '年', .digits 1 2, .lit '月'],
    [.digits 1 2, .lit '月', .digits 1 2, .lit '日'],
    [.digits 10 10],
    [.digits 13 13] ]

/-- Numeric value of a digit string. -/
def digitsToNat (s : List Char) : Nat :=
  s.foldl (fun a c => a * 10 + (c.toNat - 48)) 0

/-- Prefix match (`re.match`) of a pattern core without `\b` anchors:
does some prefix of `s` match the element sequence? -/
def preMatches : List RElem → List Char → Bool
  | [], _ => true
  | .lit c :: ps, s =>
      match s with
      | [] => false
      | x :: xs => x == c && preMatches ps xs
  | .digits lo hi :: ps, s =>
      (greedyLens lo hi).any fun n =>
        let pre := s.take n
        pre.length == n && pre.all Char.isDigit && preMatches ps (s.drop n)

/-- Model of `strptime`'s `%m` directive (regex `1[0-2]|0[1-9]|[1-9]`): a two-digit
month 01–12 or a single digit 1–9.  Trying the two-digit alternative first is
faithful to the regex engine's backtracking: a successful two-digit parse
implies the next character is a digit, while every continuation of the
one-digit parse demands a non-digit separator or the end of the string, so
the alternatives can never both lead to an overall match. -/
def parseMonth2 : List Char → Option (Nat × List Char)
  | a :: b :: rest =>
      if a.isDigit && b.isDigit then
        let v := (a.toNat - 48) * 10 + (b.toNat - 48)
        if (a == '1' && v ≤ 12) || (a == '0' && 1 ≤ v) then some (v, rest)
        else if a != '0' then some (a.toNat - 48, b :: rest) else none
      else if a.isDigit && a != '0' then some (a.toNat - 48, b :: rest) else none
  | [a] => if a.isDigit && a != '0' then some (a.toNat - 48, []) else none
  | [] => none

/-- Model of `strptime`'s `%d` directive (regex `3[01]|[12]\d|0[1-9]|[1-9]`): a
two-digit day 01–31 or a single digit 1–9 (same backtracking remark as for
`parseMonth2`). -/
def parseDay2 : List Char → Option (Nat × List Char)
  | a :: b :: rest =>
      if a.isDigit && b.isDigit then
        let v := (a.toNat - 48) * 10 + (b.toNat - 48)
        if 1 ≤ v && v ≤ 31 then some (v, rest)
        else if a != '0' then some (a.toNat - 48, b :: rest) else none
      else if a.isDigit && a != '0' then some (a.toNat - 48, b :: rest) else none
  | [a] => if a.isDigit && a != '0' then some (a.toNat - 48, []) else none
  | [] => none

/-- Model of `strptime`'s `%Y` directive (regex `\d\d\d\d`): exactly four digits. -/
def parseYear4 : List Char → Option (Nat × List Char)
  | a :: b :: c :: d :: rest =>
      if a.isDigit && b.isDigit && c.isDigit && d.isDigit then
        some (digitsToNat [a, b, c, d], rest)
      else none
  | _ => none

/-- Expect a literal separator character. -/
def expectChar (c : Char) : List Char → Option (List Char)
  | x :: xs => if x == c then some xs else none
  | [] => none

/-- Model of `datetime.datetime.strptime(s, '%Y' sep '%m' sep '%d')`: the whole string
must be consumed and the result must be a valid calendar date, else
`ValueError` (modelled as `none`). -/
def strptimeYMD (sep : Char) (s : List Char) : Option PyDateTime := do
  let (y, s) ← parseYear4 s
  let s ← expectChar sep s
  let (m, s) ← parseMonth2 s
  let s ← expectChar sep s
  let (d, s) ← parseDay2 s
  if s = [] && validYMD y m d then
    some { year := y, month := m, day := d }
  else none

/-- Model of `datetime.datetime.strptime(s, '%m/%d/%Y')`. -/
def strptimeMDY (s : List Char) : Option PyDateTime := do
  let (m, s) ← parseMonth2 s
  let s ← expectChar '/' s
  let (d, s) ← parseDay2 s
  let s ← expectChar '/' s
  let (y, s) ← parseYear4 s
  if s = [] && validYMD y m d then
    some { year := y, month := m, day := d }
  else none

/-- The substitution `date_str.replace('年', '-').replace('月', '-').replace('日', '')`. -/
def cjkReplace (s : List Char) : List Char :=
  s.filterMap fun c =>
    if c == '年' || c == '月' then some '-'
    else if c == '日' then none
    else some c

/-- Python `int(s)` restricted to the shapes reaching it here: succeeds on a
non-empty all-digit string, raises `ValueError` (→ `none`) otherwise. -/
def pyIntDigits (s : List Char) : Option Nat :=
  if s ≠ [] ∧ s.all Char.isDigit then some (digitsToNat s) else none

/-- Source `TimeProcessor._parse_date`.  Branch guards are `re.match` prefix tests in
source order; any raised `ValueError`/`OverflowError`/`OSError` is caught and
becomes `None`.  Note that the `\d{10}` guard prefix-matches any string of at
least ten leading digits, so a 13-digit timestamp is taken by the 10-digit
branch (where its full value fails the range check); the `\d{13}` branch is
unreachable.  In that dead branch, `int(s)/1000` is float division in the
source; the bound `v < 4102444800000` is exactly equivalent to
`v/1000 < 4102444800` and the fractional second becomes the microsecond
field. -/
def parseDate (s : List Char) : Option PyDateTime :=
  if preMatches [.digits 4 4, .lit '-', .digits 1 2, .lit '-', .digits 1 2] s then
    strptimeYMD '-' s
  else if preMatches [.digits 4 4, .lit '/', .digits 1 2, .lit '/', .digits 1 2] s then
    strptimeYMD '/' s
  else if preMatches [.digits 4 4, .lit '年', .digits 1 2, .lit '月', .digits 1 2,
      .lit '日'] s then
    strptimeYMD '-' (cjkReplace s)
  else if preMatches [.digits 1 2, .lit '/', .digits 1 2, .lit '/', .digits 4 4] s then
    strptimeMDY s
  else if preMatches [.digits 10 10] s then
    match pyIntDigits s with
    | none => none
    | some v => if 0 < v ∧ v < 4102444800 then some (pyFromTimestamp v) else none
  else if preMatches [.digits 13 13] s then
    match pyIntDigits s with
    | none => none
    | some v =>
        if 0 < v ∧ v < 4102444800000 then
          some { pyFromTimestamp (v / 1000) with usec := v % 1000 * 1000 }
        else none
  else none

/-- Source `TimeProcessor.extract_dates_from_text` on a character list: for each of
the nine patterns in order, find all matches, parse each, and keep the
successful parses. -/
def extractDatesL (text : List Char) : List PyDateTime :=
  ((datePatterns.map fun p => findAll p none text).flatten).filterMap parseDate

/-- Source `TimeProcessor.extract_dates_from_text`. -/
def extract_dates_from_text (s : String) : List PyDateTime :=
  extractDatesL s.data

/-- The `metadata` dict attached to a retrieved chunk by `retrieve_by_id`
(`{"id": …, "doc_id": …}`); only `doc_id` is consulted by the pipeline. -/
structure Meta where
  id : Option String := none
  docId : Option String := none
deriving Repr, DecidableEq

/-- A `RetrievedChunk` dict `{"content": …, "metadata": …}`. -/
structure RetrievedChunk where
  content : String
  metadata : Meta
deriving Repr, DecidableEq

/-- A merged per-document dict built by `merge_chunks_for_document`, with the
`time_rank`/`has_time_info` keys added later by
`enhance_retrieval_with_time_sorting` (absent = `none`). -/
structure MergedDoc where
  content : String
  metadata : Meta
  dates : List PyDateTime
  earliest_date : Option PyDateTime
  latest_date : Option PyDateTime
  chunk_count : Nat
  time_rank : Option Nat := none
  has_time_info : Option Bool := none
deriving Repr, DecidableEq

/-- Source `TimeProcessor.get_earliest_date`: Python `min` over the datetimes
(`none` on the empty list, as the source returns `None`). -/
def get_earliest_date (dates : List PyDateTime) : Option PyDateTime :=
  match dates with
  | [] => none
  | d :: ds => some (ds.foldl (fun a b => if b.key < a.key then b else a) d)

/-- Source `TimeProcessor.get_latest_date`: Python `max` over the datetimes. -/
def get_latest_date (dates : List PyDateTime) : Option PyDateTime :=
  match dates with
  | [] => none
  | d :: ds => some (ds.foldl (fun a b => if a.key < b.key then b else a) d)

/-- The truthiness test `if doc_id:` on `metadata.get('doc_id')`: a missing
key and an empty string are both falsy. -/
def truthyDocId (c : RetrievedChunk) : Option String :=
  match c.metadata.docId with
  | none => none
  | some s => if s = "" then none else some s

/-- Source `TimeProcessor.group_chunks_by_document`: group chunks by `doc_id`,
keeping groups in first-occurrence order (Python dicts preserve insertion
order); chunks with a falsy `doc_id` are dropped. -/
def group_chunks_by_document (chunks : List RetrievedChunk) :
    List (String × List RetrievedChunk) :=
  chunks.foldl
    (fun acc c =>
      match truthyDocId c with
      | none => acc
      | some d =>
        if acc.any (fun p => p.1 = d) then
          acc.map (fun p => if p.1 = d then (p.1, p.2 ++ [c]) else p)
        else acc ++ [(d, [c])])
    []

/-- Source `TimeProcessor.merge_chunks_for_document`: space-join the contents,
union the extracted dates, compute earliest/latest, take the first chunk's
metadata.  The source returns the empty dict `{}` on an empty chunk list,
which its caller drops via `if merged_doc:`; modelled as `none`. -/
def merge_chunks_for_document (chunks : List RetrievedChunk) : Option MergedDoc :=
  match chunks with
  | [] => none
  | c0 :: _ =>
    let dates := (chunks.map fun c => extract_dates_from_text c.content).flatten
    some
      { content := String.intercalate " " (chunks.map (fun c => c.content)),
        metadata := c0.metadata,
        dates := dates,
        earliest_date := get_earliest_date dates,
        latest_date := get_latest_date dates,
        chunk_count := chunks.length }

/-- Stable insertion step: place `x` before the first element `y` with
`le x y`. -/
def insertStable (le : α → α → Bool) (x : α) : List α → List α
  | [] => [x]
  | y :: ys => if le x y then x :: y :: ys else y :: insertStable le x ys

/-- Model of Python's `sorted(·, key=…)` (Timsort): a stable sort by a total
preorder.  Any two stable sorts agree extensionally, so stable insertion
sort is a faithful model. -/
def sortStable (le : α → α → Bool) (l : List α) : List α :=
  l.foldr (insertStable le) []

/-- The `get_sort_key` closure of `TimeProcessor.sort_documents_by_time`:
`earliest_date` when `sort_by == 'earliest'`, else `latest_date`; documents
without date information get `datetime.max`. -/
def docSortKey (sortBy : String) (d : MergedDoc) : Nat :=
  match (if sortBy = "earliest" then d.earliest_date else d.latest_date) with
  | none => pyDateTimeMax.key
  | some t => t.key

/-- Source `TimeProcessor.sort_documents_by_time`. -/
def sort_documents_by_time (documents : List MergedDoc) (sortBy : String) :
    List MergedDoc :=
  sortStable (fun a b => docSortKey sortBy a ≤ docSortKey sortBy b) documents

/-- The annotation loop at the end of `enhance_retrieval_with_time_sorting`:
1-based `time_rank` in sorted order, `has_time_info = (earliest_date is not
None)`. -/
def annotateFrom (i : Nat) : List MergedDoc → List MergedDoc
  | [] => []
  | d :: ds =>
      { d with time_rank := some (i + 1),
               has_time_info := some d.earliest_date.isSome } :: annotateFrom (i + 1) ds

/-- Source `enhance_retrieval_with_time_sorting` (time_processor.py): group, merge,
sort, annotate.  The `query` argument is unused by the source body. -/
def enhance_retrieval_with_time_sorting (retrieved_chunks : List RetrievedChunk)
    (query : String) (sortBy : String) : List MergedDoc :=
  let doc_groups := group_chunks_by_document retrieved_chunks
  let merged_docs := doc_groups.filterMap fun p => merge_chunks_for_document p.2
  annotateFrom 0 (sort_documents_by_time merged_docs sortBy)

/-- Source `time_sorting_utils.sort_documents_by_time` on chunk-shaped inputs (dicts
without a `'dates'` key, so the `isinstance`/`'dates' in documents[0]` branch
is skipped).  The source forwards `sort_by` only on the skipped branch; on
this path it calls `enhance_retrieval_with_time_sorting(documents, "")`,
whose `sort_by` keeps its default `'earliest'`. -/
def sort_documents_by_time_utils (documents : List RetrievedChunk)
    (sortBy : String) : List MergedDoc :=
  if documents.isEmpty then []
  else enhance_retrieval_with_time_sorting documents "" "earliest"

/-- The local copy of `sort_documents_by_time` in
`subagents/event_summary.py`, identical in behavior to
`sort_documents_by_time_utils` on chunk-shaped inputs. -/
def sort_documents_by_time_es (documents : List RetrievedChunk)
    (sortBy : String) : List MergedDoc :=
  if documents.isEmpty then []
  else enhance_retrieval_with_time_sorting documents "" "earliest"

/-- Python `str.lower()`, kernel-computable (ASCII case mapping; none of the
strings in play has non-ASCII cased characters). -/
def pyLower (s : String) : String :=
  ⟨s.data.map Char.toLower⟩

/-- Python whitespace as stripped by `str.strip()`. -/
def isPySpace (c : Char) : Bool :=
  c == ' ' || c == '\t' || c == '\n' || c == '\r' || c == '\x0b' || c == '\x0c'

/-- Python `str.strip()`: remove leading and trailing whitespace. -/
def pyStrip (s : String) : String :=
  ⟨((s.data.dropWhile isPySpace).reverse.dropWhile isPySpace).reverse⟩

/-- Source `rerank_documents_by_similarity_simple` (event_summary.py).  `simFn` is
the external `difflib.SequenceMatcher(None, ·, ·).ratio()` similarity, with
its float result modelled as an exact rational; the source lowercases both
strings before scoring and sorts the scored pairs with
`sort(key=lambda x: x[0], reverse=True)`, a stable descending sort. -/
def rerank_documents_by_similarity_simple (simFn : String → String → ℚ)
    (documents : List RetrievedChunk) (query : String) (k : Nat) :
    List RetrievedChunk :=
  if documents = [] then []
  else if query = "" then documents.take k
  else
    let scored := documents.map fun d => (simFn (pyLower query) (pyLower d.content), d)
    ((sortStable (fun a b => decide (b.1 ≤ a.1)) scored).map Prod.snd).take k

/-- Loop of the content-based deduplication in `retrieve_and_rerank`:
`seen` is the set of contents already kept. -/
def dedupGo : List RetrievedChunk → List String → List RetrievedChunk
  | [], _ => []
  | c :: cs, seen =>
      if c.content ∈ seen then dedupGo cs seen
      else c :: dedupGo cs (c.content :: seen)

/-- Deduplication by exact `content` equality, first occurrence kept. -/
def dedupByContent (l : List RetrievedChunk) : List RetrievedChunk :=
  dedupGo l []

/-- Source `retrieve_and_rerank` (event_summary.py), the retrieval orchestrator.
`retrieve` stands for `retrieve_by_id task_id · index_root` (the external
FAISS search) and `simFn` for the difflib similarity.  Per query word the
retrieved chunks are concatenated and the words are joined with spaces; the
concatenation is deduplicated by content, re-ranked against the stripped
joined query with `k = 5`, and passed through the local
`sort_documents_by_time` with `sort_by='earliest'`. -/
def retrieve_and_rerank (simFn : String → String → ℚ)
    (retrieve : String → List RetrievedChunk) (query_words : List String) :
    List MergedDoc :=
  let docs_all := (query_words.map retrieve).flatten
  let query := pyStrip (query_words.foldl (fun q w => q ++ w ++ " ") "")
  let unique_docs := dedupByContent docs_all
  if unique_docs = [] then []
  else
    sort_documents_by_time_es
      (rerank_documents_by_similarity_simple simFn unique_docs query 5) "earliest"

/-- The window stride of `chunk_text`: `step = max(1, chunk_size -
chunk_overlap)`. -/
def stride (chunk_size chunk_overlap : Nat) : Nat :=
  max 1 (chunk_size - chunk_overlap)

/-- The `while start < len(tokens)` loop of `chunk_text` (indexing.py),
returning the token spans `[start, end)` of the emitted chunks.  The source
loop is unbounded; it is modelled with explicit `fuel` (`none` = the fuel ran
out, i.e. the loop would still be running), so that termination is a theorem
rather than an assumption.  Loop body, in source order: `end = min(len,
start+size)`; an empty slice breaks; the slice is appended; `end ≥ len`
breaks; else `start += step`. -/
def chunkLoopFuel : Nat → Nat → Nat → Nat → Nat → Option (List (Nat × Nat))
  | 0, _, _, _, _ => none
  | fuel + 1, n, cs, step, start =>
    if start < n then
      let e := min n (start + cs)
      if e ≤ start then some []
      else if n ≤ e then some [(start, e)]
      else
        match chunkLoopFuel fuel n cs step (start + step) with
        | none => none
        | some l => some ((start, e) :: l)
    else some []

/-- Token spans of the chunks returned by `chunk_text` for a token sequence of
length `n`: the whole span when `n ≤ chunk_size`, else the loop's spans.  The
fuel `n + 1` is sufficient (see `chunkLoopFuel_isSome`), so the `getD` default
is never taken. -/
def chunkSpans (n cs ov : Nat) : List (Nat × Nat) :=
  if n ≤ cs then [(0, n)]
  else (chunkLoopFuel (n + 1) n cs (stride cs ov) 0).getD []

/-- Source `chunk_text(text, chunk_size, chunk_overlap)` (indexing.py) with the text
represented by its token sequence; each returned chunk is the decode of a
token window, i.e. the corresponding slice of the token list. -/
def chunk_text (tokens : List α) (cs ov : Nat) : List (List α) :=
  (chunkSpans tokens.length cs ov).map fun p => (tokens.drop p.1).take (p.2 - p.1)

/-- Source `aggregate_embeddings(vs)` (indexing.py): element-wise mean.  Floats are
modelled as exact rationals.  `dim` is the first vector's length; reading
`v[i]` from a shorter vector raises `IndexError` in the source (a caller
error per the spec), modelled as `none`. -/
def aggregate_embeddings (vs : List (List ℚ)) : Option (List ℚ) :=
  match vs with
  | [] => some []
  | v0 :: _ =>
    let dim := v0.length
    if vs.all fun v => dim ≤ v.length then
      some ((List.range dim).map fun i =>
        (vs.foldl (fun acc v => acc + v.getD i 0) 0) / (vs.length : ℚ))
    else none

/-- Source `generate_report` (generate_report.py) abstracted over the per-story
pipeline `proc` (`none` = the story's processing raised; the exception is
caught, the id is appended to `failed_ids`, and — crucially — nothing is
appended to `reports`).  The final dump evaluates `reports[i]` for every
`i in range(len(ids))`; when any story failed, `reports` is shorter than
`ids` and the comprehension raises `IndexError`, modelled as `none`. -/
def generate_report_output (ids : List String) (proc : String → Option String) :
    Option (List (String × String)) :=
  let reports := ids.filterMap proc
  if reports.length < ids.length then none
  else some ((List.range ids.length).map fun i => (ids.getD i "", reports.getD i ""))

/-- The `failed_ids` list accumulated by `generate_report`. -/
def generate_report_failed_ids (ids : List String)
    (proc : String → Option String) : List String :=
  ids.filter fun i => (proc i).isNone

/-- C1: at the failing input `ids = ["a","b"]` where story `"a"`'s processing
raises and `"b"`'s succeeds, `generate_report` records `"a"` in `failed_ids`
and still processes `"b"` (its report is the only entry of `reports`), but the
final dump — which pairs `ids[i]` with `reports[i]` for every
`i in range(len(ids))` — raises `IndexError` (`none`) instead of producing one
entry per requested id with a placeholder summary for `"a"`. -/
theorem c1_generate_report_failed_id_crashes :
    generate_report_output ["a", "b"] (fun s => if s = "a" then none else some "rb")
        = none
    ∧ generate_report_failed_ids ["a", "b"]
        (fun s => if s = "a" then none else some "rb") = ["a"]
    ∧ ["a", "b"].filterMap (fun s => if s = "a" then none else some "rb")
        = ["rb"] := by decide

/-- C2: `_parse_date` yields no date for a matched dotted date, Chinese
year-month or Chinese month-day (no parse branch exists for them, so control
falls through to the final `return None`), nor for any 13-digit Unix
timestamp — even the in-range `1682899200000` — because `re.match(r'\d{10}')`
prefix-matches its first ten digits and the full 13-digit value then fails
the `< 4102444800` range check, leaving the `\d{13}` branch dead.  At the
extraction level the matched substrings are silently dropped. -/
theorem c2_parse_date_unparsed_forms :
    parseDate "2023.05.01".data = none
    ∧ parseDate "2023年5月".data = none
    ∧ parseDate "5月1日".data = none
    ∧ parseDate "1682899200000".data = none
    ∧ extract_dates_from_text "发布 2023.05.01 1682899200000" = [] := by decide

/-- C3: extraction on `"事件发生在2023年5月1日"` returns no date at all — the
`\b` in `r'\b\d{4}年\d{1,2}月\d{1,2}日\b'` cannot match between the CJK word
character `在` and the digit `2` — contradicting the claimed extraction of
2023-05-01; the same text with the Chinese prefix removed does parse to
2023-05-01, isolating the word-boundary failure.  The claim's second half
holds: the out-of-range 13-digit timestamp yields no date. -/
theorem c3_chinese_date_not_extracted :
    extract_dates_from_text "事件发生在2023年5月1日" = []
    ∧ extract_dates_from_text "2023年5月1日" = [{ year := 2023, month := 5, day := 1 }]
    ∧ extract_dates_from_text "ts=9999999999999" = [] := by decide

/-- C4: `time_sorting_utils.sort_documents_by_time` on chunk-shaped documents
ignores the caller's `sort_by='latest'`: document A (dates 2023-01-01 and
2023-12-31) and document B (dates 2023-06-01 and 2023-06-02) come back in
earliest-date order `[A, B]`, whereas honoring `latest` (as
`enhance_retrieval_with_time_sorting` does when the argument is actually
forwarded) orders them `[B, A]`. -/
theorem c4_sort_by_latest_dropped :
    (sort_documents_by_time_utils
        [⟨"2023-01-01 2023-12-31", { docId := some "A" }⟩,
         ⟨"2023-06-01 2023-06-02", { docId := some "B" }⟩] "latest").map
          (fun d => d.metadata.docId) = [some "A", some "B"]
    ∧ (enhance_retrieval_with_time_sorting
        [⟨"2023-01-01 2023-12-31", { docId := some "A" }⟩,
         ⟨"2023-06-01 2023-06-02", { docId := some "B" }⟩] "" "latest").map
          (fun d => d.metadata.docId) = [some "B", some "A"] := by decide

/-- C10: `aggregate_embeddings` is the element-wise mean and satisfies
`aggregate([]) = []` (defined, not an error), `aggregate([v]) = v` and
`aggregate([v, v]) = v` for every vector `v`. -/
theorem c10_aggregate_identities :
    aggregate_embeddings [] = some []
    ∧ (∀ v : List ℚ, aggregate_embeddings [v] = some v)
    ∧ (∀ v : List ℚ, aggregate_embeddings [v, v] = some v) := by
  refine ⟨rfl, fun v => ?_, fun v => ?_⟩
  · simp only [aggregate_embeddings, List.all_cons, List.all_nil, List.length_cons,
      List.length_nil, Nat.le_refl, Bool.and_true, decide_eq_true_eq, le_refl, if_pos,
      decide_True, Bool.and_self, List.foldl_cons, List.foldl_nil, zero_add]
    congr 1
    apply List.ext_getElem (by simp)
    intro i h1 h2
    simp only [List.getElem_map, List.getElem_range]
    rw [List.getD_eq_getElem v 0 h2]
    norm_num
  · simp only [aggregate_embeddings, List.all_cons, List.all_nil, List.length_cons,
      List.length_nil, Nat.le_refl, Bool.and_true, decide_eq_true_eq, le_refl, if_pos,
      decide_True, Bool.and_self, List.foldl_cons, List.foldl_nil, zero_add]
    congr 1
    apply List.ext_getElem (by simp)
    intro i h1 h2
    simp only [List.getElem_map, List.getElem_range]
    rw [List.getD_eq_getElem v 0 h2]
    push_cast
    ring

/-- With a positive stride, the chunking loop halts before exhausting any fuel
exceeding the remaining token count: `start` strictly increases each
iteration and the loop stops once `start ≥ n`. -/
theorem chunkLoopFuel_isSome (fuel : Nat) :
    ∀ n cs step start : Nat, 0 < step → n - start < fuel →
      (chunkLoopFuel fuel n cs step start).isSome := by
  induction fuel with
  | zero => intro n cs step start _ h; omega
  | succ fuel ih =>
    intro n cs step start hstep h
    simp only [chunkLoopFuel]
    by_cases hs : start < n
    · simp only [hs, if_true]
      by_cases he : min n (start + cs) ≤ start
      · simp [he]
      · simp only [he, if_false]
        by_cases hn : n ≤ min n (start + cs)
        · simp [hn]
        · simp only [hn, if_false]
          have : n - (start + step) < fuel := by omega
          have := ih n cs step (start + step) hstep this
          cases hrec : chunkLoopFuel fuel n cs step (start + step) with
          | none => rw [hrec] at this; simp at this
          | some l => simp
    · simp [hs]

/-- Every position in `[start, n)` is covered by some span emitted by the
chunking loop, provided the window is nonempty and the stride does not exceed
the window size (then consecutive windows abut or overlap). -/
theorem chunkLoopFuel_cover (fuel : Nat) :
    ∀ n cs step start l, 0 < cs → 0 < step → step ≤ cs →
      chunkLoopFuel fuel n cs step start = some l →
      ∀ i, start ≤ i → i < n → ∃ p ∈ l, p.1 ≤ i ∧ i < p.2 := by
  induction fuel with
  | zero => intro n cs step start l _ _ _ h; simp [chunkLoopFuel] at h
  | succ fuel ih =>
    intro n cs step start l hc hstep hsc h i hsi hin
    simp only [chunkLoopFuel] at h
    have hs : start < n := by omega
    simp only [hs, if_true] at h
    have he : ¬ (min n (start + cs) ≤ start) := by omega
    simp only [he, if_false] at h
    by_cases hn : n ≤ min n (start + cs)
    · simp only [hn, if_true, Option.some.injEq] at h
      subst h
      exact ⟨(start, min n (start + cs)), by simp, by omega⟩
    · simp only [hn, if_false] at h
      cases hrec : chunkLoopFuel fuel n cs step (start + step) with
      | none => rw [hrec] at h; simp at h
      | some l' =>
        rw [hrec] at h
        simp only [Option.some.injEq] at h
        subst h
        by_cases hcov : i < min n (start + cs)
        · exact ⟨(start, min n (start + cs)), by simp, hsi, hcov⟩
        · have hnext : start + step ≤ i := by omega
          obtain ⟨p, hp, h1, h2⟩ := ih n cs step (start + step) l' hc hstep hsc hrec i hnext hin
          exact ⟨p, by simp [hp], h1, h2⟩

/-- Spans emitted by the chunking loop stay within `[start, n]`. -/
theorem chunkLoopFuel_bounds (fuel : Nat) :
    ∀ n cs step start l, chunkLoopFuel fuel n cs step start = some l →
      ∀ p ∈ l, start ≤ p.1 ∧ p.1 ≤ p.2 ∧ p.2 ≤ n := by
  induction fuel with
  | zero => intro n cs step start l h; simp [chunkLoopFuel] at h
  | succ fuel ih =>
    intro n cs step start l h p hp
    simp only [chunkLoopFuel] at h
    by_cases hs : start < n
    · simp only [hs, if_true] at h
      by_cases he : min n (start + cs) ≤ start
      · simp only [he, if_true, Option.some.injEq] at h
        subst h; simp at hp
      · simp only [he, if_false] at h
        by_cases hn : n ≤ min n (start + cs)
        · simp only [hn, if_true, Option.some.injEq] at h
          subst h
          simp only [List.mem_singleton] at hp
          subst hp
          refine ⟨le_refl _, by omega, by omega⟩
        · simp only [hn, if_false] at h
          cases hrec : chunkLoopFuel fuel n cs step (start + step) with
          | none => rw [hrec] at h; simp at h
          | some l' =>
            rw [hrec] at h
            simp only [Option.some.injEq] at h
            subst h
            rcases List.mem_cons.mp hp with hp | hp
            · subst hp; refine ⟨le_refl _, by omega, by omega⟩
            · have := ih n cs step (start + step) l' hrec p hp
              omega
    · simp only [hs, if_false, Option.some.injEq] at h
      subst h; simp at hp

/-- C9: for every token count, chunk size, overlap and loop position —
including `overlap ≥ chunk_size`, where `chunk_size - overlap ≤ 0` — the
stride is clamped to at least 1, and with that stride the chunking loop of
`chunk_text` halts within any fuel exceeding the remaining token count (it
never loops forever). -/
theorem c9_chunk_loop_terminates (n cs ov start fuel : Nat)
    (h : n - start < fuel) :
    1 ≤ stride cs ov ∧ chunkLoopFuel fuel n cs (stride cs ov) start ≠ none := by
  have hstep : 0 < stride cs ov := le_max_left 1 (cs - ov)
  refine ⟨hstep, ?_⟩
  have := chunkLoopFuel_isSome fuel n cs (stride cs ov) start hstep h
  exact Option.isSome_iff_ne_none.mp this

/-- Witness for C9 at a concrete input with `overlap > chunk_size`. -/
theorem c9_witness :
    5 - 0 < 6 ∧
      (1 ≤ stride 2 7 ∧ chunkLoopFuel 6 5 2 (stride 2 7) 0 ≠ none) :=
  ⟨by decide, c9_chunk_loop_terminates 5 2 7 0 6 (by decide)⟩

/-- C5: for any token sequence and `chunk_size ≥ overlap ≥ 0` with
`chunk_size ≥ 1`, the token spans of the chunks returned by `chunk_text`
jointly cover the whole token sequence and never reach beyond it, and when
the token count is at most `chunk_size` exactly one chunk — the whole input —
is returned. -/
theorem c5_chunk_text_coverage {α : Type} (tokens : List α) (cs ov : Nat)
    (h1 : 1 ≤ cs) (h2 : ov ≤ cs) :
    (∀ i, i < tokens.length →
        ∃ p ∈ chunkSpans tokens.length cs ov, p.1 ≤ i ∧ i < p.2)
    ∧ (∀ p ∈ chunkSpans tokens.length cs ov, p.1 ≤ p.2 ∧ p.2 ≤ tokens.length)
    ∧ (tokens.length ≤ cs → chunk_text tokens cs ov = [tokens]) := by
  by_cases hle : tokens.length ≤ cs
  · refine ⟨?_, ?_, ?_⟩
    · intro i hi
      refine ⟨(0, tokens.length), ?_, by omega⟩
      simp [chunkSpans, hle]
    · intro p hp
      simp only [chunkSpans, hle, if_true, List.mem_singleton] at hp
      subst hp
      exact ⟨Nat.zero_le _, le_refl _⟩
    · intro _
      simp [chunk_text, chunkSpans, hle]
  · have hstep : 0 < stride cs ov := le_max_left 1 (cs - ov)
    have hsc : stride cs ov ≤ cs := max_le h1 (Nat.sub_le cs ov)
    have hsome := chunkLoopFuel_isSome (tokens.length + 1) tokens.length cs
      (stride cs ov) 0 hstep (by omega)
    obtain ⟨l, hl⟩ := Option.isSome_iff_exists.mp hsome
    have hspans : chunkSpans tokens.length cs ov = l := by
      simp [chunkSpans, hle, hl]
    refine ⟨?_, ?_, fun hc => absurd hc hle⟩
    · intro i hi
      rw [hspans]
      exact chunkLoopFuel_cover (tokens.length + 1) tokens.length cs
        (stride cs ov) 0 l h1 hstep hsc hl i (Nat.zero_le i) hi
    · intro p hp
      rw [hspans] at hp
      have := chunkLoopFuel_bounds (tokens.length + 1) tokens.length cs
        (stride cs ov) 0 l hl p hp
      exact ⟨this.2.1, this.2.2⟩

/-- Witness for C5 at a concrete token list. -/
theorem c5_witness :
    1 ≤ 2 ∧ 1 ≤ 2 ∧
      ((∀ i, i < ([0, 1, 2, 3, 4] : List Nat).length →
          ∃ p ∈ chunkSpans ([0, 1, 2, 3, 4] : List Nat).length 2 1,
            p.1 ≤ i ∧ i < p.2)
        ∧ (∀ p ∈ chunkSpans ([0, 1, 2, 3, 4] : List Nat).length 2 1,
            p.1 ≤ p.2 ∧ p.2 ≤ ([0, 1, 2, 3, 4] : List Nat).length)
        ∧ (([0, 1, 2, 3, 4] : List Nat).length ≤ 2 →
            chunk_text ([0, 1, 2, 3, 4] : List Nat) 2 1 = [[0, 1, 2, 3, 4]])) :=
  ⟨by decide, by decide,
    c5_chunk_text_coverage [0, 1, 2, 3, 4] 2 1 (by decide) (by decide)⟩

/-- A stable sort leaves a list unchanged when the comparison accepts every
ordered pair drawn from it (e.g. all sort keys equal). -/
theorem sortStable_of_all_le (le : α → α → Bool) :
    ∀ l : List α, (∀ x ∈ l, ∀ y ∈ l, le x y = true) → sortStable le l = l := by
  intro l
  induction l with
  | nil => intro _; rfl
  | cons x xs ih =>
    intro h
    have hxs : sortStable le xs = xs :=
      ih fun a ha b hb => h a (List.mem_cons_of_mem x ha) b (List.mem_cons_of_mem x hb)
    show insertStable le x (sortStable le xs) = x :: xs
    rw [hxs]
    cases xs with
    | nil => rfl
    | cons y ys =>
      have : le x y = true :=
        h x (List.mem_cons_self x (y :: ys)) y (List.mem_cons_of_mem x (List.mem_cons_self y ys))
      simp [insertStable, this]

/-- The annotation loop on documents without dates: 1-based ranks in list
order and `has_time_info = false` everywhere. -/
theorem annotateFrom_of_none :
    ∀ (docs : List MergedDoc) (i : Nat), (∀ d ∈ docs, d.earliest_date = none) →
      annotateFrom i docs = (List.enumFrom i docs).map fun p =>
        { p.2 with time_rank := some (p.1 + 1), has_time_info := some false } := by
  intro docs
  induction docs with
  | nil => intro i _; rfl
  | cons d ds ih =>
    intro i h
    have hd : d.earliest_date = none := h d (List.mem_cons_self d ds)
    have hds := ih (i + 1) fun a ha => h a (List.mem_cons_of_mem d ha)
    simp only [annotateFrom, List.enumFrom, List.map_cons, hd, Option.isSome_none, hds]

/-- C6: on a list of merged documents none of which carries any extracted
date, time-sorting returns exactly the input order (all documents share the
maximal `datetime.max` sort key and the sort is stable), and the annotation
pass then assigns 1-based `time_rank` in that order with
`has_time_info = false` on every document. -/
theorem c6_time_sort_stable (docs : List MergedDoc)
    (h : ∀ d ∈ docs, d.earliest_date = none) :
    sort_documents_by_time docs "earliest" = docs
    ∧ annotateFrom 0 (sort_documents_by_time docs "earliest")
        = docs.enum.map fun p =>
            { p.2 with time_rank := some (p.1 + 1), has_time_info := some false } := by
  have hsort : sort_documents_by_time docs "earliest" = docs := by
    apply sortStable_of_all_le
    intro x hx y hy
    have hx' := h x hx
    have hy' := h y hy
    simp [docSortKey, hx', hy']
  refine ⟨hsort, ?_⟩
  rw [hsort, annotateFrom_of_none docs 0 h]
  rfl

/-- Witness for C6 at two concrete date-free merged documents. -/
theorem c6_witness :
    (∀ d ∈ ([⟨"c1", { docId := some "A" }, [], none, none, 1, none, none⟩,
             ⟨"c2", { docId := some "B" }, [], none, none, 1, none, none⟩] :
        List MergedDoc), d.earliest_date = none)
    ∧ (sort_documents_by_time
          [⟨"c1", { docId := some "A" }, [], none, none, 1, none, none⟩,
           ⟨"c2", { docId := some "B" }, [], none, none, 1, none, none⟩] "earliest"
          = [⟨"c1", { docId := some "A" }, [], none, none, 1, none, none⟩,
             ⟨"c2", { docId := some "B" }, [], none, none, 1, none, none⟩]
        ∧ annotateFrom 0 (sort_documents_by_time
            [⟨"c1", { docId := some "A" }, [], none, none, 1, none, none⟩,
             ⟨"c2", { docId := some "B" }, [], none, none, 1, none, none⟩] "earliest")
          = ([⟨"c1", { docId := some "A" }, [], none, none, 1, none, none⟩,
              ⟨"c2", { docId := some "B" }, [], none, none, 1, none, none⟩] :
              List MergedDoc).enum.map fun p =>
                { p.2 with time_rank := some (p.1 + 1),
                           has_time_info := some false }) :=
  ⟨by decide,
    c6_time_sort_stable
      [⟨"c1", { docId := some "A" }, [], none, none, 1, none, none⟩,
       ⟨"c2", { docId := some "B" }, [], none, none, 1, none, none⟩]
      (by decide)⟩

/-- Inserting into a list yields a permutation of consing. -/
theorem insertStable_perm (le : α → α → Bool) (x : α) :
    ∀ l : List α, (insertStable le x l).Perm (x :: l) := by
  intro l
  induction l with
  | nil => exact List.Perm.refl _
  | cons y ys ih =>
    by_cases h : le x y = true
    · simp [insertStable, h]
    · simp only [insertStable, h, if_false]
      exact (ih.cons y).trans (List.Perm.swap x y ys)

/-- A stable sort permutes its input. -/
theorem sortStable_perm (le : α → α → Bool) :
    ∀ l : List α, (sortStable le l).Perm l := by
  intro l
  induction l with
  | nil => exact List.Perm.refl _
  | cons x xs ih =>
    exact (insertStable_perm le x (sortStable le xs)).trans (ih.cons x)

/-- The deduplication loop returns chunks with pairwise-distinct contents,
none of which appears in the `seen` accumulator. -/
theorem dedupGo_spec :
    ∀ (l : List RetrievedChunk) (seen : List String),
      List.Pairwise (fun a b => a.content ≠ b.content) (dedupGo l seen)
      ∧ ∀ c ∈ dedupGo l seen, c.content ∉ seen := by
  intro l
  induction l with
  | nil => intro seen; exact ⟨List.Pairwise.nil, by simp [dedupGo]⟩
  | cons c cs ih =>
    intro seen
    by_cases hc : c.content ∈ seen
    · simpa [dedupGo, hc] using ih seen
    · simp only [dedupGo, hc, if_false]
      refine ⟨List.Pairwise.cons ?_ (ih (c.content :: seen)).1, ?_⟩
      · intro b hb
        have := (ih (c.content :: seen)).2 b hb
        simp only [List.mem_cons, not_or] at this
        exact fun he => this.1 he.symm
      · intro d hd
        rcases List.mem_cons.mp hd with hd | hd
        · subst hd; exact hc
        · have := (ih (c.content :: seen)).2 d hd
          simp only [List.mem_cons, not_or] at this
          exact this.2

/-- C7 counterexample: with one query variant retrieving three chunks of
pairwise-distinct contents — document A's single chunk `"x y"`, document B's
chunks `"x"` and `"y"` — the orchestrator's final output consists of two
merged documents whose contents are both the string `"x y"`, so the output
does contain two entries with character-identical content strings. -/
theorem c7_counterexample :
    (retrieve_and_rerank (fun _ _ => 0)
        (fun _ => [⟨"x y", { docId := some "A" }⟩, ⟨"x", { docId := some "B" }⟩,
          ⟨"y", { docId := some "B" }⟩]) ["q"]).map (fun d => d.content)
      = ["x y", "x y"]
    ∧ ¬ List.Pairwise (fun a b => a ≠ b)
        ((retrieve_and_rerank (fun _ _ => 0)
          (fun _ => [⟨"x y", { docId := some "A" }⟩, ⟨"x", { docId := some "B" }⟩,
            ⟨"y", { docId := some "B" }⟩]) ["q"]).map (fun d => d.content)) := by
  constructor
  · decide
  · intro hpw
    have h1 : (retrieve_and_rerank (fun _ _ => 0)
        (fun _ => [⟨"x y", { docId := some "A" }⟩, ⟨"x", { docId := some "B" }⟩,
          ⟨"y", { docId := some "B" }⟩]) ["q"]).map (fun d => d.content)
        = ["x y", "x y"] := by decide
    rw [h1] at hpw
    simp at hpw

/-- C7 (amended): the orchestrator deduplicates the concatenated per-variant
retrieval results by exact content equality before re-ranking, so the chunk
list entering the re-ranker — and the re-ranked list it passes onward —
never contains two chunks with identical content strings (while, per the
counterexample, the per-document merge can still collapse to equal merged
contents). -/
theorem c7_dedup_before_rerank (simFn : String → String → ℚ)
    (retrieve : String → List RetrievedChunk) (query_words : List String) :
    List.Pairwise (fun a b => a.content ≠ b.content)
        (dedupByContent ((query_words.map retrieve).flatten))
    ∧ List.Pairwise (fun a b => a.content ≠ b.content)
        (rerank_documents_by_similarity_simple simFn
          (dedupByContent ((query_words.map retrieve).flatten))
          (pyStrip (query_words.foldl (fun q w => q ++ w ++ " ") "")) 5) := by
  have hsymm : Symmetric (fun a b : RetrievedChunk => a.content ≠ b.content) :=
    fun _ _ h => h.symm
  set l := (query_words.map retrieve).flatten with hl
  have hdedup := (dedupGo_spec l []).1
  refine ⟨hdedup, ?_⟩
  set q := pyStrip (query_words.foldl (fun q w => q ++ w ++ " ") "") with hq
  unfold rerank_documents_by_similarity_simple
  by_cases h0 : dedupByContent l = []
  · rw [if_pos h0]
    exact List.Pairwise.nil
  · rw [if_neg h0]
    by_cases hqe : q = ""
    · rw [if_pos hqe]
      exact hdedup.sublist (List.take_sublist 5 _)
    · rw [if_neg hqe]
      apply List.Pairwise.sublist (List.take_sublist 5 _)
      have hperm : ((sortStable (fun a b => decide (b.1 ≤ a.1))
          ((dedupByContent l).map fun d =>
            (simFn (pyLower q) (pyLower d.content), d))).map Prod.snd).Perm
          (dedupByContent l) := by
        have h1 := (sortStable_perm (fun a b : ℚ × RetrievedChunk => decide (b.1 ≤ a.1))
          ((dedupByContent l).map fun d => (simFn (pyLower q) (pyLower d.content), d))).map
            Prod.snd
        have h2 : (((dedupByContent l).map fun d =>
            (simFn (pyLower q) (pyLower d.content), d)).map Prod.snd)
            = dedupByContent l := by
          induction dedupByContent l with
          | nil => rfl
          | cons a as ih => simp only [List.map_cons, ih]
        rw [h2] at h1
        exact h1
      exact (hperm.pairwise_iff fun {_ _} h => Ne.symm h).mpr hdedup

/-- Descending-score order with ties broken by original position — the
spec-side description of the re-ranker's ordering ("sorts descending by
score; stable tie-break by original order"), to be compared with the source
translation `rerank_documents_by_similarity_simple`. -/
def lexDescLe (a b : ℚ × Nat × γ) : Bool :=
  decide (b.1 < a.1) || (decide (a.1 = b.1) && decide (a.2.1 ≤ b.2.1))

/-- The re-ranker's output ordering stated from the spec's words: index the
chunks by original position, score them, and sort by descending score with
ascending original position as the tie-break (an antisymmetric total order,
so this ordering is unique — stability is forced rather than assumed). -/
def rerankOrderSpec (simFn : String → String → ℚ)
    (documents : List RetrievedChunk) (query : String) :
    List (ℚ × Nat × RetrievedChunk) :=
  sortStable lexDescLe
    (documents.enum.map fun p => (simFn (pyLower query) (pyLower p.2.content), p.1, p.2))

/-- Indices in `enumFrom i` are at least `i`. -/
theorem enumFrom_fst_le :
    ∀ (xs : List α) (i : Nat), ∀ p ∈ List.enumFrom i xs, i ≤ p.1 := by
  intro xs
  induction xs with
  | nil => intro i p hp; simp [List.enumFrom] at hp
  | cons x xs ih =>
    intro i p hp
    rcases List.mem_cons.mp hp with hp | hp
    · subst hp; exact le_refl i
    · exact Nat.le_of_succ_le (ih (i + 1) p hp)

/-- Indices in `enumFrom i` are strictly increasing along the list. -/
theorem enumFrom_fst_lt_pairwise :
    ∀ (xs : List α) (i : Nat),
      List.Pairwise (fun p q => p.1 < q.1) (List.enumFrom i xs) := by
  intro xs
  induction xs with
  | nil => intro i; exact List.Pairwise.nil
  | cons x xs ih =>
    intro i
    refine List.Pairwise.cons ?_ (ih (i + 1))
    intro q hq
    exact Nat.lt_of_succ_le (enumFrom_fst_le xs (i + 1) q hq)

/-- Mapping a function of the element only over `enumFrom` forgets the
indices. -/
theorem enumFrom_map_snd (h : α → β) :
    ∀ (xs : List α) (i : Nat),
      (List.enumFrom i xs).map (fun p => h p.2) = xs.map h := by
  intro xs
  induction xs with
  | nil => intro i; rfl
  | cons x xs ih => intro i; simp only [List.enumFrom, List.map_cons, ih]

/-- Inserting an element whose original position precedes everything in the
target list: the lexicographic comparison degenerates to the plain
descending-score comparison, so insertion commutes with forgetting the
position. -/
theorem insertStable_lex_proj (t : ℚ × Nat × γ) :
    ∀ L : List (ℚ × Nat × γ), (∀ u ∈ L, t.2.1 < u.2.1) →
      (insertStable lexDescLe t L).map (fun u => (u.1, u.2.2))
        = insertStable (fun a b : ℚ × γ => decide (b.1 ≤ a.1)) (t.1, t.2.2)
            (L.map fun u => (u.1, u.2.2)) := by
  intro L
  induction L with
  | nil => intro _; rfl
  | cons u us ih =>
    intro h
    have hidx : t.2.1 < u.2.1 := h u (List.mem_cons_self u us)
    have hcond : lexDescLe t u = decide (u.1 ≤ t.1) := by
      by_cases hle : u.1 ≤ t.1
      · rcases lt_or_eq_of_le hle with hlt | heq
        · simp [lexDescLe, hlt, hle]
        · simp [lexDescLe, heq.symm, hle, le_of_lt hidx]
      · have h1 : ¬ u.1 < t.1 := fun hc => hle (le_of_lt hc)
        have h2 : ¬ t.1 = u.1 := fun hc => hle (le_of_eq hc.symm)
        simp [lexDescLe, h1, h2, hle]
    by_cases hc : u.1 ≤ t.1
    · simp [insertStable, hcond, hc]
    · simp [insertStable, hcond, hc, ih fun v hv => h v (List.mem_cons_of_mem u hv)]

/-- On a list with strictly increasing original positions, the stable
descending sort of the position-free projection coincides with the
lexicographic (score desc, position asc) sort followed by projection. -/
theorem sortStable_desc_of_lex :
    ∀ l : List (ℚ × Nat × γ), List.Pairwise (fun t u => t.2.1 < u.2.1) l →
      sortStable (fun a b : ℚ × γ => decide (b.1 ≤ a.1)) (l.map fun u => (u.1, u.2.2))
        = (sortStable lexDescLe l).map (fun u => (u.1, u.2.2)) := by
  intro l
  induction l with
  | nil => intro _; rfl
  | cons t ts ih =>
    intro h
    have hhead : ∀ u ∈ ts, t.2.1 < u.2.1 := fun u hu => (List.pairwise_cons.mp h).1 u hu
    have htail := (List.pairwise_cons.mp h).2
    show insertStable _ (t.1, t.2.2) (sortStable _ (ts.map fun u => (u.1, u.2.2)))
        = (insertStable lexDescLe t (sortStable lexDescLe ts)).map fun u => (u.1, u.2.2)
    rw [ih htail]
    rw [insertStable_lex_proj t (sortStable lexDescLe ts)
      (fun u hu => hhead u ((sortStable_perm lexDescLe ts).mem_iff.mp hu))]

/-- C8: the re-ranker returns the chunk list truncated to `k` when the list
or the query is empty (`rerank([], q, k) = []`, `rerank(chunks, "", k) =
chunks.take k`, unscored); otherwise it scores each chunk's content against
the query case-insensitively through the similarity function and returns the
top `k` in descending-score order with ties broken by original position —
the unique stable ordering `rerankOrderSpec`. -/
theorem c8_rerank_spec (simFn : String → String → ℚ)
    (documents : List RetrievedChunk) (query : String) (k : Nat) :
    (documents = [] → rerank_documents_by_similarity_simple simFn documents query k = [])
    ∧ (query = "" → rerank_documents_by_similarity_simple simFn documents query k
        = documents.take k)
    ∧ (documents ≠ [] → query ≠ "" →
        rerank_documents_by_similarity_simple simFn documents query k
          = ((rerankOrderSpec simFn documents query).map fun u => u.2.2).take k) := by
  refine ⟨?_, ?_, ?_⟩
  · intro h
    simp [rerank_documents_by_similarity_simple, h]
  · intro hq
    unfold rerank_documents_by_similarity_simple
    by_cases h0 : documents = []
    · rw [if_pos h0, h0]; simp
    · rw [if_neg h0, if_pos hq]
  · intro h0 hq
    unfold rerank_documents_by_similarity_simple
    rw [if_neg h0, if_neg hq]
    dsimp only
    congr 1
    have hpw : List.Pairwise (fun t u : ℚ × Nat × RetrievedChunk => t.2.1 < u.2.1)
        (documents.enum.map fun p =>
          (simFn (pyLower query) (pyLower p.2.content), p.1, p.2)) := by
      refine List.pairwise_map.mpr ?_
      exact enumFrom_fst_lt_pairwise documents 0
    have hproj : ((documents.enum.map fun p =>
          (simFn (pyLower query) (pyLower p.2.content), p.1, p.2)).map
            fun u => (u.1, u.2.2))
        = documents.map fun d => (simFn (pyLower query) (pyLower d.content), d) := by
      rw [List.map_map]
      exact enumFrom_map_snd (fun d => (simFn (pyLower query) (pyLower d.content), d))
        documents 0
    have hmain := sortStable_desc_of_lex
      (documents.enum.map fun p =>
        (simFn (pyLower query) (pyLower p.2.content), p.1, p.2)) hpw
    rw [hproj] at hmain
    rw [hmain, rerankOrderSpec, List.map_map]
    rfl

/-- Witness for C8 at a concrete nonempty chunk list and nonempty query. -/
theorem c8_witness :
    ([⟨"x", {}⟩, ⟨"y", {}⟩] : List RetrievedChunk) ≠ []
    ∧ ("q" : String) ≠ ""
    ∧ rerank_documents_by_similarity_simple (fun _ _ => 0)
        [⟨"x", {}⟩, ⟨"y", {}⟩] "q" 1
      = ((rerankOrderSpec (fun _ _ => 0) [⟨"x", {}⟩, ⟨"y", {}⟩] "q").map
          fun u => u.2.2).take 1 :=
  ⟨by decide, by decide,
    (c8_rerank_spec (fun _ _ => 0) [⟨"x", {}⟩, ⟨"y", {}⟩] "q" 1).2.2
      (by decide) (by decide)⟩
